import Mathlib

/-!
Verification of the RSVP reading-session engine of the gulp repository.

Strings manipulated by the engine are modelled as lists of characters
(`JsStr`); JavaScript numbers are modelled as rationals (`ℚ`), which is
exact for every arithmetic operation the engine performs (division,
multiplication by 1.5 and 1.2, min/max, increment).  Fallible JSON
parsing is modelled with `Option`/`Except`.  Each definition is a direct
transcription of the corresponding function in the source.
-/

namespace Gulp

/-- A JavaScript string, modelled as a list of characters. -/
abbrev JsStr := List Char

/-! ### Character classes used by `tokenize` (src/lib/rsvp/tokenize.ts) -/

/-- Characters matched by the regex class in the first replace of
`tokenize`, i.e. carriage return, newline and tab. -/
def isNlt (c : Char) : Bool :=
  c = '\r' || c = '\n' || c = '\t'

/-- Characters matched by the JavaScript regex escape for whitespace:
space, tab, carriage return, newline, vertical tab, form feed, and the
Unicode space separators, line/paragraph separators, NBSP and BOM. -/
def isJsWs (c : Char) : Bool :=
  c = ' ' || c = '\t' || c = '\r' || c = '\n' || c = '\x0b' || c = '\x0c' ||
  c = '\u00A0' || c = '\u1680' || ('\u2000' ≤ c && c ≤ '\u200A') ||
  c = '\u2028' || c = '\u2029' || c = '\u202F' || c = '\u205F' ||
  c = '\u3000' || c = '\uFEFF'

/-- Global replacement of every maximal run of characters satisfying `p`
by the single character `r`, as performed by a JavaScript
`replace(regexClassPlus, r)`.  The boolean argument records whether the
previous character belonged to a run. -/
def replaceRunsAux (p : Char → Bool) (r : Char) : Bool → JsStr → JsStr
  | _, [] => []
  | inRun, c :: cs =>
    if p c then
      if inRun then replaceRunsAux p r true cs
      else r :: replaceRunsAux p r true cs
    else
      c :: replaceRunsAux p r false cs

/-- Replace every maximal run of characters satisfying `p` by `r`. -/
def replaceRuns (p : Char → Bool) (r : Char) (l : JsStr) : JsStr :=
  replaceRunsAux p r false l

/-- JavaScript `String.prototype.trim`: remove leading and trailing
whitespace. -/
def jsTrim (l : JsStr) : JsStr :=
  ((l.dropWhile isJsWs).reverse.dropWhile isJsWs).reverse

/-- JavaScript `split(singleSpace)`: cut the string at every space
character, keeping empty pieces (so the empty string splits to one
empty piece). -/
def splitOnSpace : JsStr → List JsStr
  | [] => [[]]
  | c :: cs =>
    let r := splitOnSpace cs
    if c = ' ' then [] :: r
    else
      match r with
      | [] => [[c]]
      | t :: ts => (c :: t) :: ts

/-- `tokenize` from src/lib/rsvp/tokenize.ts: normalize carriage
returns, newlines and tabs to spaces, collapse whitespace runs, trim,
split on the single space and keep only non-empty tokens.  The leading
guard mirrors the falsiness test on the empty string. -/
def tokenize (text : JsStr) : List JsStr :=
  if text = [] then []
  else
    let normalized := jsTrim (replaceRuns isJsWs ' ' (replaceRuns isNlt ' ' text))
    if normalized = [] then []
    else (splitOnSpace normalized).filter (fun t => t.length > 0)

/-- `tokenize` on a possibly-null argument: the guard in the source
returns the empty array for `null` (and any other falsy or non-string
value). -/
def tokenizeJs : Option JsStr → List JsStr
  | none => []
  | some t => tokenize t

/-! ### Pivot calculation (src/lib/rsvp/pivot.ts) -/

/-- `getPivotIndex` from src/lib/rsvp/pivot.ts: the step table on word
length, with `len / 4` (floor) for words longer than 13 characters. -/
def getPivotIndex (word : JsStr) : Nat :=
  if word.length = 0 then 0
  else
    let len := word.length
    if len ≤ 1 then 0
    else if len ≤ 3 then 1
    else if len ≤ 5 then 1
    else if len ≤ 7 then 2
    else if len ≤ 9 then 2
    else if len ≤ 11 then 3
    else if len ≤ 13 then 3
    else len / 4

/-- The three-way split of a word around its pivot character. -/
structure PivotSplit where
  left : JsStr
  pivot : JsStr
  right : JsStr
deriving DecidableEq, Repr

/-- `splitAtPivot` from src/lib/rsvp/pivot.ts: slice before the pivot,
the single pivot character (empty when absent), and the slice after. -/
def splitAtPivot (word : JsStr) : PivotSplit :=
  if word.length = 0 then ⟨[], [], []⟩
  else
    let pivotIndex := getPivotIndex word
    ⟨word.take pivotIndex,
     match word[pivotIndex]? with
     | some c => [c]
     | none => [],
     word.drop (pivotIndex + 1)⟩

/-- The pivot-index step table exactly as the specification words it,
as a function of the word length alone. -/
def specPivotTable (len : Nat) : Nat :=
  if len ≤ 1 then 0
  else if len ≤ 3 then 1
  else if len ≤ 5 then 1
  else if len ≤ 7 then 2
  else if len ≤ 9 then 2
  else if len ≤ 11 then 3
  else if len ≤ 13 then 3
  else len / 4

/-! ### Per-word timing (getWordDelay in src/routes/+page.svelte) -/

/-- A JavaScript regex test anchored at the end of the string: true when
the last character of `w` belongs to `chars` (false on the empty
string). -/
def jsTestLastIn (chars : List Char) (w : JsStr) : Bool :=
  match w.getLast? with
  | some c => chars.contains c
  | none => false

/-- `getWordDelay` from src/routes/+page.svelte: the base delay is the
derived `msPerWord = 60000 / wpm`, multiplied by 1.5 when the word ends
in sentence-terminal punctuation and by 1.2 when it ends in
clause-terminal punctuation. -/
def getWordDelay (wpm : ℚ) (word : JsStr) : ℚ :=
  let baseDelay := 60000 / wpm
  if jsTestLastIn ['.', '!', '?'] word then baseDelay * 1.5
  else if jsTestLastIn [',', ';', ':'] word then baseDelay * 1.2
  else baseDelay

/-- The per-word delay exactly as the specification words it: base
delay `60000 / wpm` times a multiplier chosen by the last character of
the token. -/
def specDelay (wpm : ℚ) (word : JsStr) : ℚ :=
  (60000 / wpm) *
    (match word.getLast? with
     | none => 1
     | some c =>
       if c = '.' ∨ c = '!' ∨ c = '?' then 1.5
       else if c = ',' ∨ c = ';' ∨ c = ':' then 1.2
       else 1)

/-! ### Persistence (loadState in src/lib/storage.ts) -/

/-- A parsed JSON value.  Object fields are an association list. -/
inductive JValue where
  | jnull
  | jbool (b : Bool)
  | jnum (q : ℚ)
  | jstr (s : JsStr)
  | jarr (elems : List JValue)
  | jobj (fields : List (String × JValue))

/-- JavaScript property access `v[key]` on a parsed JSON value other
than `null`: a lookup on objects, `undefined` (here `none`) on every
other value. -/
def getProp (v : JValue) (key : String) : Option JValue :=
  match v with
  | .jobj fields => fields.lookup key
  | _ => none

/-- The persisted state shape of src/lib/storage.ts. -/
structure RsvpPersistedState where
  url : JsStr
  sourceText : JsStr
  wpm : ℚ
  wordIndex : ℚ
deriving DecidableEq, Repr

/-- `DEFAULT_STATE` from src/lib/storage.ts. -/
def DEFAULT_STATE : RsvpPersistedState :=
  { url := [], sourceText := [], wpm := 450, wordIndex := 0 }

/-- The url field validation of `loadState`: keep a string, default
otherwise. -/
def loadUrl (parsed : JValue) : JsStr :=
  match getProp parsed "url" with
  | some (.jstr s) => s
  | _ => DEFAULT_STATE.url

/-- The sourceText field validation of `loadState`. -/
def loadSourceText (parsed : JValue) : JsStr :=
  match getProp parsed "sourceText" with
  | some (.jstr s) => s
  | _ => DEFAULT_STATE.sourceText

/-- The wpm field validation of `loadState`: keep a positive number,
default otherwise. -/
def loadWpm (parsed : JValue) : ℚ :=
  match getProp parsed "wpm" with
  | some (.jnum q) => if q > 0 then q else DEFAULT_STATE.wpm
  | _ => DEFAULT_STATE.wpm

/-- The wordIndex field validation of `loadState`: keep a non-negative
number, default otherwise. -/
def loadWordIndex (parsed : JValue) : ℚ :=
  match getProp parsed "wordIndex" with
  | some (.jnum q) => if q ≥ 0 then q else DEFAULT_STATE.wordIndex
  | _ => DEFAULT_STATE.wordIndex

/-- `loadState` from src/lib/storage.ts.  The argument models the
stored slot: `none` when nothing is stored, `some (.error ())` when
`JSON.parse` throws (corrupt JSON), `some (.ok v)` when it parses to
`v`.  Property access on `null` throws and is caught by the
surrounding try, yielding the full default record; otherwise each
field is validated independently. -/
def loadState (stored : Option (Except Unit JValue)) : RsvpPersistedState :=
  match stored with
  | none => DEFAULT_STATE
  | some (.error _) => DEFAULT_STATE
  | some (.ok JValue.jnull) => DEFAULT_STATE
  | some (.ok parsed) =>
    { url := loadUrl parsed, sourceText := loadSourceText parsed,
      wpm := loadWpm parsed, wordIndex := loadWordIndex parsed }

/-- `wpm = Math.min(saved.wpm || 300, 900)` from `onMount` in
src/routes/+page.svelte; `a || b` on numbers yields `b` exactly when
`a` is falsy (zero). -/
def jsOrNum (a b : ℚ) : ℚ := if a = 0 then b else a

/-- The session wpm computed at engine startup from the loaded state. -/
def onMountWpm (saved : RsvpPersistedState) : ℚ :=
  min (jsOrNum saved.wpm 300) 900

/-! ### Playback state machine (src/routes/+page.svelte)

The component state relevant to the claims: the app state string, the
session data and the single pending advance timer.  `pending = some d`
models an armed `setTimeout` whose delay is `d`; firing it runs the
callback of `scheduleNextWord`.  Indices and wpm are JavaScript
numbers, so they are modelled as rationals. -/

/-- The application states of the component. -/
inductive AppState where
  | input | loading | countdown | playing | paused | finished
deriving DecidableEq, Repr

/-- The component state. -/
structure MachineState where
  appState : AppState
  inputValue : JsStr
  sourceText : JsStr
  tokens : List JsStr
  wordIndex : ℚ
  wpm : ℚ
  errorMessage : JsStr
  pending : Option ℚ
deriving DecidableEq, Repr

/-- JavaScript array indexing `tokens[wordIndex]` with a number index:
the element when the index is a non-negative integer in range,
`undefined` otherwise.  `undefined` is modelled as the empty string,
which behaves identically under `getWordDelay` (no last character, so
base delay). -/
def tokGet (ts : List JsStr) (q : ℚ) : JsStr :=
  if q.den = 1 ∧ 0 ≤ q.num then ts.getD q.num.toNat [] else []

/-- `scheduleNextWord`: arm the advance timer with the delay of the
current token while the index is before the last token, otherwise enter
the finished state. -/
def scheduleNextWord (s : MachineState) : MachineState :=
  if s.wordIndex < (s.tokens.length : ℚ) - 1 then
    { s with pending := some (getWordDelay s.wpm (tokGet s.tokens s.wordIndex)) }
  else
    { s with appState := .finished }

/-- The armed timer fires: the callback increments the index and, when
still playing, schedules the next word.  With no armed timer nothing
happens. -/
def fireTimer (s : MachineState) : MachineState :=
  match s.pending with
  | none => s
  | some _ =>
    let s1 : MachineState := { s with pending := none, wordIndex := s.wordIndex + 1 }
    if s1.appState = .playing then scheduleNextWord s1 else s1

/-- `stopTimer`: clear the pending advance timer. -/
def stopTimer (s : MachineState) : MachineState :=
  { s with pending := none }

/-- `startTimer`: stop any pending timer, then schedule unless the
token sequence is empty. -/
def startTimer (s : MachineState) : MachineState :=
  let s1 := stopTimer s
  if s1.tokens.length = 0 then s1 else scheduleNextWord s1

/-- `togglePlay`: pause from playing (cancelling the pending timer);
from paused or finished, reset the index when at or past the last
token, then play and start the timer. -/
def togglePlay (s : MachineState) : MachineState :=
  if s.appState = .playing then
    stopTimer { s with appState := .paused }
  else if s.appState = .paused ∨ s.appState = .finished then
    let s1 := if s.wordIndex ≥ (s.tokens.length : ℚ) - 1 then { s with wordIndex := 0 } else s
    startTimer { s1 with appState := .playing }
  else s

/-- `restart`: back to index 0; restart the timer when playing, or
re-enter playing from finished. -/
def restart (s : MachineState) : MachineState :=
  let s1 : MachineState := { s with wordIndex := 0 }
  if s1.appState = .playing then startTimer s1
  else if s1.appState = .finished then startTimer { s1 with appState := .playing }
  else s1

/-- `goBack`: stop the advance timer, discard the session and return
to the input state.  The error message is not written. -/
def goBack (s : MachineState) : MachineState :=
  let s1 := stopTimer s
  { s1 with sourceText := [], tokens := [], wordIndex := 0, inputValue := [],
            appState := .input }

/-- `handleWpmChange`: when playing, cancel and re-arm the timer with
the full delay of the current token at the current rate. -/
def handleWpmChange (s : MachineState) : MachineState :=
  if s.appState = .playing then startTimer s else s

/-- The keys handled by the global keydown handler. -/
inductive PressedKey where
  | space | arrowLeft | arrowRight | arrowUp | arrowDown | escape
deriving DecidableEq, Repr

/-- `handleKeydown` from src/routes/+page.svelte: inert in the input,
loading and countdown states; otherwise space toggles play, the arrow
keys seek (clamped) or adjust wpm (clamped), and escape goes back.
The guard on the event target being a form control is a UI concern and
is not modelled. -/
def handleKeydown (key : PressedKey) (shiftKey : Bool) (s : MachineState) : MachineState :=
  if s.appState = .input ∨ s.appState = .loading ∨ s.appState = .countdown then s
  else
    match key with
    | .space => togglePlay s
    | .arrowLeft =>
      { s with wordIndex := max 0 (s.wordIndex - (if shiftKey then 10 else 1)) }
    | .arrowRight =>
      { s with
        wordIndex := min ((s.tokens.length : ℚ) - 1) (s.wordIndex + (if shiftKey then 10 else 1)) }
    | .arrowUp => handleWpmChange { s with wpm := min 2000 (s.wpm + 25) }
    | .arrowDown => handleWpmChange { s with wpm := max 50 (s.wpm - 25) }
    | .escape => goBack s

/-- `resumeSession`: when saved text exists, re-tokenize it, clamp the
saved index from above by the last position, and enter paused when any
token exists. -/
def resumeSession (saved : RsvpPersistedState) (s : MachineState) : MachineState :=
  if saved.sourceText ≠ [] then
    let toks := tokenize saved.sourceText
    let s1 : MachineState :=
      { s with sourceText := saved.sourceText, tokens := toks,
               wordIndex := min saved.wordIndex ((toks.length : ℚ) - 1) }
    if toks.length > 0 then { s1 with appState := .paused } else s1
  else s


/-- The end-to-end example session: the text "Hello world. Bye" at
wpm 600, in the playing state with no timer armed yet. -/
def demoSession : MachineState :=
  { appState := .playing, inputValue := [], sourceText := "Hello world. Bye".toList,
    tokens := tokenize "Hello world. Bye".toList, wordIndex := 0, wpm := 600,
    errorMessage := [], pending := none }

/-- A three-token playing session used for the stale-timer seek trace. -/
def seekSession : MachineState :=
  { appState := .playing, inputValue := [], sourceText := "He is ok".toList,
    tokens := tokenize "He is ok".toList, wordIndex := 0, wpm := 600,
    errorMessage := [], pending := none }

/-- The stale-timer trace: while playing with an armed advance timer,
seek right twice (reaching the last token) and then let the armed timer
fire. -/
def staleAdvanceTrace : MachineState :=
  fireTimer (handleKeydown .arrowRight false
    (handleKeydown .arrowRight false (startTimer seekSession)))

lemma getPivotIndex_eq_table (word : JsStr) :
    getPivotIndex word = specPivotTable word.length := by
  unfold getPivotIndex specPivotTable
  rcases Nat.eq_zero_or_pos word.length with h | h
  · simp [h]
  · have : ¬ word.length = 0 := by omega
    simp [this]

lemma getPivotIndex_lt_length (word : JsStr) (hw : word ≠ []) :
    getPivotIndex word < word.length := by
  have hlen : 0 < word.length := List.length_pos.mpr hw
  rw [getPivotIndex_eq_table]
  unfold specPivotTable
  split <;> try omega
  split <;> try omega
  split <;> try omega
  split <;> try omega
  split <;> try omega
  split <;> try omega
  split <;> omega

lemma specPivotTable_of_ge {n : Nat} (h : 14 ≤ n) :
    specPivotTable n = n / 4 := by
  unfold specPivotTable
  split_ifs <;> omega

lemma specPivotTable_succ_le (n : Nat) :
    specPivotTable n ≤ specPivotTable (n + 1) := by
  rcases Nat.lt_or_ge n 14 with h | h
  · interval_cases n <;> decide
  · rw [specPivotTable_of_ge h, specPivotTable_of_ge (by omega)]
    exact Nat.div_le_div_right (by omega)

lemma specPivotTable_mono {m n : Nat} (h : m ≤ n) :
    specPivotTable m ≤ specPivotTable n := by
  induction n with
  | zero => simp_all
  | succ k ih =>
    rcases Nat.lt_or_ge m (k + 1) with h' | h'
    · exact le_trans (ih (by omega)) (specPivotTable_succ_le k)
    · have : m = k + 1 := by omega
      simp [this]

/-- Claim C1: for every word `w`, `splitAtPivot w` satisfies the
reconstruction invariant `left ++ pivot ++ right = w`; for a non-empty
word the pivot is exactly the single character of `w` at index
`getPivotIndex w` (the one-element slice starting there); for the empty
word all three fields are empty. -/
theorem C1_splitAtPivot_reconstruction :
    (∀ w : JsStr,
      (splitAtPivot w).left ++ (splitAtPivot w).pivot ++ (splitAtPivot w).right = w) ∧
    (∀ w : JsStr, w ≠ [] →
      (splitAtPivot w).pivot = (w.drop (getPivotIndex w)).take 1 ∧
      (splitAtPivot w).pivot.length = 1) ∧
    splitAtPivot [] = ⟨[], [], []⟩ := by
  refine ⟨?_, ?_, rfl⟩
  · intro w
    by_cases hw : w = []
    · simp [hw, splitAtPivot]
    · have hlt : getPivotIndex w < w.length := getPivotIndex_lt_length w hw
      have hlen : ¬ w.length = 0 := by
        simp [List.length_eq_zero, hw]
      have hget : w[getPivotIndex w]? = some (w.get ⟨getPivotIndex w, hlt⟩) := by
        rw [List.getElem?_eq_getElem hlt]
        rfl
      simp only [splitAtPivot, hlen, if_false, hget]
      rw [List.append_assoc]
      have hdrop : w.drop (getPivotIndex w) =
          w.get ⟨getPivotIndex w, hlt⟩ :: w.drop (getPivotIndex w + 1) :=
        List.drop_eq_getElem_cons hlt
      calc w.take (getPivotIndex w) ++
            ([w.get ⟨getPivotIndex w, hlt⟩] ++ w.drop (getPivotIndex w + 1))
          = w.take (getPivotIndex w) ++ w.drop (getPivotIndex w) := by
            rw [hdrop]; rfl
        _ = w := List.take_append_drop _ _
  · intro w hw
    have hlt : getPivotIndex w < w.length := getPivotIndex_lt_length w hw
    have hlen : ¬ w.length = 0 := by
      simp [List.length_eq_zero, hw]
    have hget : w[getPivotIndex w]? = some (w.get ⟨getPivotIndex w, hlt⟩) := by
      rw [List.getElem?_eq_getElem hlt]
      rfl
    constructor
    · simp only [splitAtPivot, hlen, if_false, hget]
      rw [List.drop_eq_getElem_cons hlt]
      rfl
    · simp [splitAtPivot, hlen, hget]

/-- Witness for C1 at the concrete word "hello": the pivot is the
one-character slice of the word at the pivot index. -/
theorem C1_witness :
    (splitAtPivot "hello".toList).pivot =
      ("hello".toList.drop (getPivotIndex "hello".toList)).take 1 ∧
    (splitAtPivot "hello".toList).pivot.length = 1 :=
  C1_splitAtPivot_reconstruction.2.1 "hello".toList (by decide)

/-- Claim C7: `getPivotIndex` equals the fixed step table of the
specification on the word length (length 20 giving 5), and the table is
non-decreasing as the length increases. -/
theorem C7_pivot_table :
    (∀ w : JsStr, getPivotIndex w = specPivotTable w.length) ∧
    (specPivotTable 1 = 0 ∧ specPivotTable 3 = 1 ∧ specPivotTable 5 = 1 ∧
     specPivotTable 7 = 2 ∧ specPivotTable 9 = 2 ∧ specPivotTable 11 = 3 ∧
     specPivotTable 13 = 3 ∧ specPivotTable 20 = 5) ∧
    (∀ m n : Nat, m ≤ n → specPivotTable m ≤ specPivotTable n) := by
  refine ⟨getPivotIndex_eq_table, by decide, ?_⟩
  intro m n h
  exact specPivotTable_mono h

/-- Witness for C7 at lengths 13 and 20. -/
theorem C7_witness :
    (13 : Nat) ≤ 20 ∧ specPivotTable 13 ≤ specPivotTable 20 :=
  ⟨by decide, C7_pivot_table.2.2 13 20 (by decide)⟩

/-! ### Tokenizer lemmas -/

lemma mem_replaceRunsAux {p : Char → Bool} {r c : Char} :
    ∀ {b : Bool} {l : JsStr}, c ∈ replaceRunsAux p r b l → c = r ∨ p c = false := by
  intro b l
  induction l generalizing b with
  | nil => intro h; simp [replaceRunsAux] at h
  | cons a as ih =>
    intro h
    cases hpa : p a with
    | true =>
      cases b with
      | true =>
        simp only [replaceRunsAux, hpa, if_pos, if_true] at h
        exact ih h
      | false =>
        simp only [replaceRunsAux, hpa, if_true, if_false] at h
        rcases List.mem_cons.mp h with h1 | h1
        · exact Or.inl h1
        · exact ih h1
    | false =>
      simp only [replaceRunsAux, hpa, Bool.false_eq_true, if_false] at h
      rcases List.mem_cons.mp h with h1 | h1
      · subst h1; exact Or.inr hpa
      · exact ih h1

lemma splitOnSpace_ne_nil (l : JsStr) : splitOnSpace l ≠ [] := by
  cases l with
  | nil => simp [splitOnSpace]
  | cons c cs =>
    simp only [splitOnSpace]
    split
    · simp
    · cases h : splitOnSpace cs <;> simp

lemma mem_splitOnSpace_mem :
    ∀ {l t : JsStr}, t ∈ splitOnSpace l → ∀ {c : Char}, c ∈ t → c ∈ l ∧ c ≠ ' ' := by
  intro l
  induction l with
  | nil =>
    intro t ht c hc
    simp [splitOnSpace] at ht
    subst ht
    simp at hc
  | cons a as ih =>
    intro t ht c hc
    simp only [splitOnSpace] at ht
    by_cases ha : a = ' '
    · rw [if_pos ha] at ht
      rcases List.mem_cons.mp ht with h1 | h1
      · subst h1; simp at hc
      · have := ih h1 hc
        exact ⟨List.mem_cons_of_mem a this.1, this.2⟩
    · rw [if_neg ha] at ht
      cases hs : splitOnSpace as with
      | nil => exact absurd hs (splitOnSpace_ne_nil as)
      | cons u us =>
        rw [hs] at ht
        rcases List.mem_cons.mp ht with h1 | h1
        · subst h1
          rcases List.mem_cons.mp hc with h2 | h2
          · exact ⟨by rw [h2]; exact List.mem_cons_self a as,
                   by rw [h2]; exact ha⟩
          · have hu : u ∈ splitOnSpace as := by rw [hs]; exact List.mem_cons_self u us
            have := ih hu h2
            exact ⟨List.mem_cons_of_mem a this.1, this.2⟩
        · have htt : t ∈ splitOnSpace as := by rw [hs]; exact List.mem_cons_of_mem u h1
          have := ih htt hc
          exact ⟨List.mem_cons_of_mem a this.1, this.2⟩

lemma splitOnSpace_flatten (l : JsStr) :
    (splitOnSpace l).flatten = l.filter (fun c => c != ' ') := by
  induction l with
  | nil => rfl
  | cons a as ih =>
    simp only [splitOnSpace]
    by_cases ha : a = ' '
    · rw [if_pos ha]
      subst ha
      simpa [List.filter_cons] using ih
    · rw [if_neg ha]
      cases hs : splitOnSpace as with
      | nil => exact absurd hs (splitOnSpace_ne_nil as)
      | cons u us =>
        have hflat : u ++ us.flatten = (splitOnSpace as).flatten := by
          rw [hs]; rfl
        have hane : (a != ' ') = true := by simp [ha]
        simp only [List.flatten_cons, List.filter_cons, hane, if_true, List.cons_append]
        exact congrArg (a :: ·) (hflat.trans ih)

lemma flatten_filter_nonempty (L : List JsStr) :
    (L.filter (fun t => t.length > 0)).flatten = L.flatten := by
  induction L with
  | nil => rfl
  | cons t ts ih =>
    by_cases h : t = []
    · subst h; simpa [List.filter_cons] using ih
    · have hlen : decide (t.length > 0) = true := by
        simp [List.length_pos, h]
      simp [List.filter_cons, hlen, ih]

lemma filter_dropWhile_eq {p q : Char → Bool} :
    ∀ {l : JsStr}, (∀ c ∈ l, p c = true → q c = false) →
      (l.dropWhile p).filter q = l.filter q := by
  intro l
  induction l with
  | nil => intro _; rfl
  | cons a as ih =>
    intro h
    cases hp : p a with
    | false => simp [List.dropWhile_cons, hp]
    | true =>
      have hq : q a = false := h a (List.mem_cons_self a as) hp
      rw [List.dropWhile_cons]
      simp only [hp, if_true, List.filter_cons, hq, if_false]
      exact ih (fun c hc hpc => h c (List.mem_cons_of_mem a hc) hpc)

lemma mem_jsTrim {l : JsStr} {c : Char} (hc : c ∈ jsTrim l) : c ∈ l := by
  unfold jsTrim at hc
  rw [List.mem_reverse] at hc
  have h1 := (List.dropWhile_sublist (l := (l.dropWhile isJsWs).reverse) isJsWs).subset hc
  rw [List.mem_reverse] at h1
  exact (List.dropWhile_sublist (l := l) isJsWs).subset h1

lemma filter_jsTrim_eq {l : JsStr}
    (h : ∀ c ∈ l, isJsWs c = true → c = ' ') :
    (jsTrim l).filter (fun c => c != ' ') = l.filter (fun c => c != ' ') := by
  have hcond : ∀ c ∈ l, isJsWs c = true → (c != ' ') = false := by
    intro c hc hws
    simp [h c hc hws]
  unfold jsTrim
  rw [List.filter_reverse]
  rw [filter_dropWhile_eq (fun c hc hws => by
    rw [List.mem_reverse] at hc
    exact hcond c ((List.dropWhile_sublist (l := l) isJsWs).subset hc) hws)]
  rw [List.filter_reverse, List.reverse_reverse]
  exact filter_dropWhile_eq hcond

lemma replaceRunsAux_cons_pos_true {p : Char → Bool} {r a : Char} {as : JsStr}
    (h : p a = true) :
    replaceRunsAux p r true (a :: as) = replaceRunsAux p r true as := by
  simp [replaceRunsAux, h]

lemma replaceRunsAux_cons_pos_false {p : Char → Bool} {r a : Char} {as : JsStr}
    (h : p a = true) :
    replaceRunsAux p r false (a :: as) = r :: replaceRunsAux p r true as := by
  simp [replaceRunsAux, h]

lemma replaceRunsAux_cons_neg {p : Char → Bool} {r a : Char} {as : JsStr} {b : Bool}
    (h : p a = false) :
    replaceRunsAux p r b (a :: as) = a :: replaceRunsAux p r false as := by
  simp [replaceRunsAux, h]

lemma filter_replaceRunsAux {p p' : Char → Bool} {r : Char}
    (hp : ∀ c, p c = true → p' c = true) (hr : p' r = true) :
    ∀ (b : Bool) (l : JsStr),
      (replaceRunsAux p r b l).filter (fun c => !(p' c)) = l.filter (fun c => !(p' c)) := by
  intro b l
  induction l generalizing b with
  | nil => rfl
  | cons a as ih =>
    cases hpa : p a with
    | true =>
      have hp'a : p' a = true := hp a hpa
      cases b with
      | true =>
        rw [replaceRunsAux_cons_pos_true hpa, List.filter_cons]
        simp only [hp'a, Bool.not_true, if_false]
        exact ih true
      | false =>
        rw [replaceRunsAux_cons_pos_false hpa, List.filter_cons, List.filter_cons]
        simp only [hp'a, hr, Bool.not_true, if_false]
        exact ih true
    | false =>
      rw [replaceRunsAux_cons_neg hpa, List.filter_cons, List.filter_cons]
      cases hp'a : p' a with
      | true =>
        simp only [Bool.not_true, if_false]
        exact ih false
      | false =>
        simp only [Bool.not_false, if_true]
        rw [ih false]

lemma isNlt_isJsWs {c : Char} (h : isNlt c = true) : isJsWs c = true := by
  simp only [isNlt, Bool.or_eq_true, decide_eq_true_eq] at h
  rcases h with (h | h) | h <;> subst h <;> decide

lemma mem_replaceRuns_isJsWs {l : JsStr} {c : Char}
    (hc : c ∈ replaceRuns isJsWs ' ' l) (hws : isJsWs c = true) : c = ' ' := by
  rcases mem_replaceRunsAux hc with h | h
  · exact h
  · rw [h] at hws; exact absurd hws (by simp)

lemma tokenize_flatten (text : JsStr) :
    (tokenize text).flatten = text.filter (fun c => !(isJsWs c)) := by
  by_cases ht : text = []
  · simp [tokenize, ht]
  · have hstep1 :
        (replaceRuns isNlt ' ' text).filter (fun c => !(isJsWs c)) =
          text.filter (fun c => !(isJsWs c)) :=
      filter_replaceRunsAux (fun c => isNlt_isJsWs) (by decide) false text
    have hstep2 :
        (replaceRuns isJsWs ' ' (replaceRuns isNlt ' ' text)).filter (fun c => !(isJsWs c)) =
          (replaceRuns isNlt ' ' text).filter (fun c => !(isJsWs c)) :=
      filter_replaceRunsAux (fun c h => h) (by decide) false (replaceRuns isNlt ' ' text)
    set y2 := replaceRuns isJsWs ' ' (replaceRuns isNlt ' ' text) with hy2
    have hcongr : y2.filter (fun c => !(isJsWs c)) = y2.filter (fun c => c != ' ') := by
      apply List.filter_congr
      intro c hc
      cases hws : isJsWs c with
      | true =>
        have := mem_replaceRuns_isJsWs hc hws
        simp [this]
      | false =>
        have : ¬ c = ' ' := by
          intro hsp; rw [hsp] at hws; exact absurd hws (by decide)
        simp [this]
    have htrim : (jsTrim y2).filter (fun c => c != ' ') = y2.filter (fun c => c != ' ') :=
      filter_jsTrim_eq (fun c hc hws => mem_replaceRuns_isJsWs hc hws)
    have hchain : (jsTrim y2).filter (fun c => c != ' ') =
        text.filter (fun c => !(isJsWs c)) := by
      rw [htrim, ← hcongr, hstep2, hstep1]
    unfold tokenize
    rw [if_neg ht]
    by_cases hnz : jsTrim y2 = []
    · simp only [hy2] at hnz
      rw [hnz]
      simp only [if_true, List.flatten_nil]
      rw [← hchain]
      simp [hnz]
    · simp only [hy2] at hnz
      rw [if_neg hnz]
      rw [flatten_filter_nonempty, splitOnSpace_flatten]
      exact hchain

lemma tokenize_tokens {text t : JsStr} (htok : t ∈ tokenize text) :
    t ≠ [] ∧ ∀ c ∈ t, isJsWs c = false := by
  by_cases ht : text = []
  · rw [ht] at htok; simp [tokenize] at htok
  · simp only [tokenize, if_neg ht] at htok
    by_cases hnz : jsTrim (replaceRuns isJsWs ' ' (replaceRuns isNlt ' ' text)) = []
    · rw [if_pos hnz] at htok; simp at htok
    · rw [if_neg hnz] at htok
      rw [List.mem_filter] at htok
      obtain ⟨hmem, hlen⟩ := htok
      constructor
      · intro hnil
        rw [hnil] at hlen
        simp at hlen
      · intro c hc
        have := mem_splitOnSpace_mem hmem hc
        have hin : c ∈ replaceRuns isJsWs ' ' (replaceRuns isNlt ' ' text) :=
          mem_jsTrim this.1
        cases hws : isJsWs c with
        | true => exact absurd (mem_replaceRuns_isJsWs hin hws) this.2
        | false => rfl

/-- Claim C3: `tokenize` normalizes carriage returns, newlines and tabs
to spaces, collapses whitespace runs, trims, splits on the single space
and discards zero-length tokens: every returned token is non-empty and
whitespace-free, the tokens preserve the order of the non-whitespace
characters of the input (their concatenation is exactly the input with
its whitespace removed), empty or null input yields the empty sequence,
and the concrete examples of the specification hold. -/
theorem C3_tokenize_normalization :
    (∀ text : JsStr, ∀ t ∈ tokenize text, t ≠ [] ∧ ∀ c ∈ t, isJsWs c = false) ∧
    (∀ text : JsStr, (tokenize text).flatten = text.filter (fun c => !(isJsWs c))) ∧
    tokenize "a  b\n\tc".toList = ["a".toList, "b".toList, "c".toList] ∧
    tokenize [] = [] ∧
    tokenizeJs none = [] := by
  refine ⟨fun text t ht => tokenize_tokens ht, tokenize_flatten, by decide, rfl, rfl⟩

/-- Witness for C3: the character of the token "a" of the tokenized
input "a b" is not whitespace. -/
theorem C3_witness : isJsWs 'a' = false :=
  (C3_tokenize_normalization.1 "a b".toList "a".toList (by decide)).2 'a' (by decide)

/-- Claim C2: for every token and every positive wpm, the delay before
advancing is `60000 / wpm` milliseconds multiplied by 1.5 when the last
character of the token is sentence-terminal, by 1.2 when it is
clause-terminal and by 1.0 otherwise; at wpm 600 the tokens "hello",
"hello." and "hello," give 100, 150 and 120 ms. -/
theorem C2_word_delay :
    (∀ (wpm : ℚ) (t : JsStr), 0 < wpm → getWordDelay wpm t = specDelay wpm t) ∧
    getWordDelay 600 "hello".toList = 100 ∧
    getWordDelay 600 "hello.".toList = 150 ∧
    getWordDelay 600 "hello,".toList = 120 := by
  refine ⟨?_, ?_, ?_, ?_⟩
  case refine_2 =>
    simp only [getWordDelay,
      show jsTestLastIn ['.', '!', '?'] "hello".toList = false from rfl,
      show jsTestLastIn [',', ';', ':'] "hello".toList = false from rfl,
      Bool.false_eq_true, if_false]
    norm_num
  case refine_3 =>
    simp only [getWordDelay,
      show jsTestLastIn ['.', '!', '?'] "hello.".toList = true from rfl, if_true]
    norm_num
  case refine_4 =>
    simp only [getWordDelay,
      show jsTestLastIn ['.', '!', '?'] "hello,".toList = false from rfl,
      show jsTestLastIn [',', ';', ':'] "hello,".toList = true from rfl,
      Bool.false_eq_true, if_false, if_true]
    norm_num
  case refine_1 =>
  intro wpm t _
  cases hl : t.getLast? with
  | none => simp [getWordDelay, specDelay, jsTestLastIn, hl]
  | some c =>
    by_cases h1 : c = '.' ∨ c = '!' ∨ c = '?'
    · rcases h1 with h | h | h <;> subst h <;> simp [getWordDelay, specDelay, jsTestLastIn, hl]
    · by_cases h2 : c = ',' ∨ c = ';' ∨ c = ':'
      · rcases h2 with h | h | h <;> subst h <;>
          simp [getWordDelay, specDelay, jsTestLastIn, hl]
      · have hc1 : (['.', '!', '?'].contains c) = false := by
          simpa using h1
        have hc2 : ([',', ';', ':'].contains c) = false := by
          simpa using h2
        simp [getWordDelay, specDelay, jsTestLastIn, hl, hc1, hc2, h1, h2]

/-- Witness for C2 at wpm 600 and the token "abc,". -/
theorem C2_witness :
    (0 : ℚ) < 600 ∧ getWordDelay 600 "abc,".toList = specDelay 600 "abc,".toList :=
  ⟨by norm_num, C2_word_delay.1 600 "abc,".toList (by norm_num)⟩

/-! ### Machine step lemmas -/

lemma getWordDelay_base (wpm : ℚ) (w : JsStr)
    (h1 : jsTestLastIn ['.', '!', '?'] w = false)
    (h2 : jsTestLastIn [',', ';', ':'] w = false) :
    getWordDelay wpm w = 60000 / wpm := by
  simp [getWordDelay, h1, h2]

lemma getWordDelay_sentence (wpm : ℚ) (w : JsStr)
    (h1 : jsTestLastIn ['.', '!', '?'] w = true) :
    getWordDelay wpm w = 60000 / wpm * 1.5 := by
  simp [getWordDelay, h1]

lemma getWordDelay_clause (wpm : ℚ) (w : JsStr)
    (h1 : jsTestLastIn ['.', '!', '?'] w = false)
    (h2 : jsTestLastIn [',', ';', ':'] w = true) :
    getWordDelay wpm w = 60000 / wpm * 1.2 := by
  simp [getWordDelay, h1, h2]

lemma startTimer_run (s : MachineState) (d : ℚ) (h0 : ¬ s.tokens.length = 0)
    (hlt : s.wordIndex < (s.tokens.length : ℚ) - 1)
    (hd : getWordDelay s.wpm (tokGet s.tokens s.wordIndex) = d) :
    startTimer s = { s with pending := some d } := by
  simp only [startTimer, stopTimer, scheduleNextWord]
  rw [if_neg h0, if_pos hlt, hd]

lemma fireTimer_none (s : MachineState) (hp : s.pending = none) :
    fireTimer s = s := by
  simp only [fireTimer, hp]

lemma fireTimer_advance (s : MachineState) (d d' : ℚ) (hp : s.pending = some d)
    (hplay : s.appState = .playing)
    (hlt : s.wordIndex + 1 < (s.tokens.length : ℚ) - 1)
    (hd : getWordDelay s.wpm (tokGet s.tokens (s.wordIndex + 1)) = d') :
    fireTimer s = { s with wordIndex := s.wordIndex + 1, pending := some d' } := by
  simp only [fireTimer, hp, scheduleNextWord]
  rw [if_pos hplay, if_pos hlt, hd]

lemma fireTimer_finish (s : MachineState) (d : ℚ) (hp : s.pending = some d)
    (hplay : s.appState = .playing)
    (hge : ¬ (s.wordIndex + 1 < (s.tokens.length : ℚ) - 1)) :
    fireTimer s =
      { s with wordIndex := s.wordIndex + 1, pending := none, appState := .finished } := by
  simp only [fireTimer, hp, scheduleNextWord]
  rw [if_pos hplay, if_neg hge]

/-- Claim C4: the text "Hello world. Bye" at wpm 600 tokenizes to
["Hello","world.","Bye"]; while playing the scheduled advance delays
are 100 ms (after "Hello") and 150 ms (after "world."), then the
machine enters the finished state with no timer armed and a further
advance changes nothing; in general, an advance that brings the index
to the last token arms no timer and enters the finished state. -/
theorem C4_end_to_end_trace :
    tokenize "Hello world. Bye".toList = ["Hello".toList, "world.".toList, "Bye".toList] ∧
    (startTimer demoSession).pending = some 100 ∧
    (fireTimer (startTimer demoSession)).wordIndex = 1 ∧
    (fireTimer (startTimer demoSession)).appState = .playing ∧
    (fireTimer (startTimer demoSession)).pending = some 150 ∧
    (fireTimer (fireTimer (startTimer demoSession))).appState = .finished ∧
    (fireTimer (fireTimer (startTimer demoSession))).pending = none ∧
    fireTimer (fireTimer (fireTimer (startTimer demoSession))) =
      fireTimer (fireTimer (startTimer demoSession)) ∧
    (∀ (s : MachineState) (d : ℚ), s.appState = .playing → s.pending = some d →
      s.wordIndex + 1 = (s.tokens.length : ℚ) - 1 →
      (fireTimer s).appState = .finished ∧ (fireTimer s).pending = none) := by
  have htoks : tokenize "Hello world. Bye".toList =
      ["Hello".toList, "world.".toList, "Bye".toList] := by decide
  have h0 : startTimer demoSession =
      { appState := .playing, inputValue := [], sourceText := "Hello world. Bye".toList,
        tokens := ["Hello".toList, "world.".toList, "Bye".toList], wordIndex := 0,
        wpm := 600, errorMessage := [], pending := some 100 } := by
    have hdemo : demoSession =
        { appState := .playing, inputValue := [], sourceText := "Hello world. Bye".toList,
          tokens := ["Hello".toList, "world.".toList, "Bye".toList], wordIndex := 0,
          wpm := 600, errorMessage := [], pending := none } := by
      unfold demoSession; rw [htoks]
    rw [hdemo]
    refine startTimer_run _ 100 (by decide) (by norm_num) ?_
    show getWordDelay 600 (tokGet ["Hello".toList, "world.".toList, "Bye".toList] 0) = 100
    rw [show tokGet ["Hello".toList, "world.".toList, "Bye".toList] (0 : ℚ) =
      "Hello".toList from rfl]
    rw [getWordDelay_base 600 "Hello".toList rfl rfl]
    norm_num
  have h1 : fireTimer
      { appState := .playing, inputValue := [], sourceText := "Hello world. Bye".toList,
        tokens := ["Hello".toList, "world.".toList, "Bye".toList], wordIndex := 0,
        wpm := 600, errorMessage := [], pending := some 100 } =
      { appState := .playing, inputValue := [], sourceText := "Hello world. Bye".toList,
        tokens := ["Hello".toList, "world.".toList, "Bye".toList], wordIndex := 1,
        wpm := 600, errorMessage := [], pending := some 150 } := by
    rw [fireTimer_advance _ 100 150 rfl rfl (by norm_num) ?_]
    · norm_num [MachineState.mk.injEq]
    · show getWordDelay 600
        (tokGet ["Hello".toList, "world.".toList, "Bye".toList] ((0 : ℚ) + 1)) = 150
      rw [show ((0 : ℚ) + 1) = 1 by norm_num]
      rw [show tokGet ["Hello".toList, "world.".toList, "Bye".toList] (1 : ℚ) =
        "world.".toList from rfl]
      rw [getWordDelay_sentence 600 "world.".toList rfl]
      norm_num
  have h2 : fireTimer
      { appState := .playing, inputValue := [], sourceText := "Hello world. Bye".toList,
        tokens := ["Hello".toList, "world.".toList, "Bye".toList], wordIndex := 1,
        wpm := 600, errorMessage := [], pending := some 150 } =
      { appState := .finished, inputValue := [], sourceText := "Hello world. Bye".toList,
        tokens := ["Hello".toList, "world.".toList, "Bye".toList], wordIndex := 2,
        wpm := 600, errorMessage := [], pending := none } := by
    rw [fireTimer_finish _ 150 rfl rfl (by norm_num)]
    norm_num [MachineState.mk.injEq]
  refine ⟨htoks, ?_, ?_, ?_, ?_, ?_, ?_, ?_, ?_⟩
  · rw [h0]
  · rw [h0, h1]
  · rw [h0, h1]
  · rw [h0, h1]
  · rw [h0, h1, h2]
  · rw [h0, h1, h2]
  · rw [h0, h1, h2]
    exact fireTimer_none _ rfl
  · intro s d hplay hp heq
    have hge : ¬ (s.wordIndex + 1 < (s.tokens.length : ℚ) - 1) := by
      rw [heq]; exact lt_irrefl _
    rw [fireTimer_finish s d hp hplay hge]
    exact ⟨rfl, rfl⟩

/-- Witness for C4: a playing state one position before the last of
three tokens, with an armed timer, finishes on the next advance. -/
theorem C4_witness :
    (fireTimer
      { appState := .playing, inputValue := [], sourceText := "He is ok".toList,
        tokens := ["He".toList, "is".toList, "ok".toList], wordIndex := 1,
        wpm := 600, errorMessage := [], pending := some 100 }).appState = .finished ∧
    (fireTimer
      { appState := .playing, inputValue := [], sourceText := "He is ok".toList,
        tokens := ["He".toList, "is".toList, "ok".toList], wordIndex := 1,
        wpm := 600, errorMessage := [], pending := some 100 }).pending = none :=
  C4_end_to_end_trace.2.2.2.2.2.2.2.2 _ 100 rfl rfl (by norm_num)

lemma togglePlay_pause (s : MachineState) (hplay : s.appState = .playing) :
    togglePlay s = { s with appState := .paused, pending := none } := by
  simp only [togglePlay, stopTimer]
  rw [if_pos hplay]

lemma togglePlay_resume (s : MachineState) (d : ℚ) (hpf : s.appState = .paused ∨ s.appState = .finished)
    (hnp : ¬ s.appState = .playing)
    (hge : ¬ (s.wordIndex ≥ (s.tokens.length : ℚ) - 1))
    (h0 : ¬ s.tokens.length = 0)
    (hd : getWordDelay s.wpm (tokGet s.tokens s.wordIndex) = d) :
    togglePlay s = { s with appState := .playing, pending := some d } := by
  simp only [togglePlay]
  rw [if_neg hnp, if_pos hpf, if_neg hge]
  exact startTimer_run _ d h0 (lt_of_not_ge hge) hd

lemma fireTimer_iterate_none (s : MachineState) (hp : s.pending = none) :
    ∀ n : ℕ, fireTimer^[n] s = s := by
  intro n
  induction n with
  | zero => rfl
  | succ k ih =>
    rw [Function.iterate_succ_apply, fireTimer_none s hp, ih]

/-- Claim C5: pausing from the playing state cancels the pending
advance timer, after which any number of fired advances changes
nothing; a wpm change outside the playing state reschedules nothing,
and inside the playing state it cancels the timer and re-arms it with
the full delay of the current token at the current rate; resuming from
a pause likewise re-arms the full delay of the current token. -/
theorem C5_pause_cancels_pending :
    (∀ s : MachineState, s.appState = .playing →
      (togglePlay s).appState = .paused ∧ (togglePlay s).pending = none) ∧
    (∀ (s : MachineState) (n : ℕ), s.pending = none → fireTimer^[n] s = s) ∧
    (∀ s : MachineState, ¬ s.appState = .playing → handleWpmChange s = s) ∧
    (∀ (s : MachineState) (d : ℚ), s.appState = .playing → ¬ s.tokens.length = 0 →
      s.wordIndex < (s.tokens.length : ℚ) - 1 →
      getWordDelay s.wpm (tokGet s.tokens s.wordIndex) = d →
      (handleWpmChange s).pending = some d) ∧
    (∀ (s : MachineState) (d : ℚ), s.appState = .paused → ¬ s.tokens.length = 0 →
      ¬ (s.wordIndex ≥ (s.tokens.length : ℚ) - 1) →
      getWordDelay s.wpm (tokGet s.tokens s.wordIndex) = d →
      (togglePlay s).appState = .playing ∧ (togglePlay s).pending = some d) := by
  refine ⟨?_, ?_, ?_, ?_, ?_⟩
  · intro s hplay
    rw [togglePlay_pause s hplay]
    exact ⟨rfl, rfl⟩
  · intro s n hp
    exact fireTimer_iterate_none s hp n
  · intro s hnp
    simp only [handleWpmChange]
    rw [if_neg hnp]
  · intro s d hplay h0 hlt hd
    simp only [handleWpmChange]
    rw [if_pos hplay, startTimer_run s d h0 hlt hd]
  · intro s d hpause h0 hge hd
    have hnp : ¬ s.appState = .playing := by rw [hpause]; decide
    rw [togglePlay_resume s d (Or.inl hpause) hnp hge h0 hd]
    exact ⟨rfl, rfl⟩

/-- Witness for C5: resuming a paused two-token session re-arms the
full 100 ms delay of the current token. -/
theorem C5_witness :
    (togglePlay
      { appState := .paused, inputValue := [], sourceText := "He is".toList,
        tokens := ["He".toList, "is".toList], wordIndex := 0, wpm := 600,
        errorMessage := [], pending := none }).appState = .playing ∧
    (togglePlay
      { appState := .paused, inputValue := [], sourceText := "He is".toList,
        tokens := ["He".toList, "is".toList], wordIndex := 0, wpm := 600,
        errorMessage := [], pending := none }).pending = some 100 :=
  C5_pause_cancels_pending.2.2.2.2 _ 100 rfl (by decide) (by norm_num)
    (by
      show getWordDelay 600 (tokGet ["He".toList, "is".toList] 0) = 100
      rw [show tokGet ["He".toList, "is".toList] (0 : ℚ) = "He".toList from rfl]
      rw [getWordDelay_base 600 "He".toList rfl rfl]
      norm_num)

/-- Counterexample for C9: in the countdown state the escape action is
ignored by the keydown handler, so no transition to the input state
occurs. -/
theorem C9_counterexample :
    handleKeydown .escape false
      { appState := .countdown, inputValue := [], sourceText := "Hi there".toList,
        tokens := ["Hi".toList, "there".toList], wordIndex := 0, wpm := 600,
        errorMessage := [], pending := none } =
      { appState := .countdown, inputValue := [], sourceText := "Hi there".toList,
        tokens := ["Hi".toList, "there".toList], wordIndex := 0, wpm := 600,
        errorMessage := [], pending := none } ∧
    ({ appState := .countdown, inputValue := [], sourceText := "Hi there".toList,
        tokens := ["Hi".toList, "there".toList], wordIndex := 0, wpm := 600,
        errorMessage := [], pending := none } : MachineState).appState =
      AppState.countdown := by
  exact ⟨rfl, rfl⟩

/-- Claim C9 (amended): from the playing, paused or finished states the
back/escape action transitions to the input state, cancels the pending
advance timer and discards the session (tokens, index and source text
reset); the error message is left unchanged (it is already empty in
these states); in the countdown state the escape action is ignored. -/
theorem C9_back_to_input :
    ∀ s : MachineState,
      s.appState = .playing ∨ s.appState = .paused ∨ s.appState = .finished →
      handleKeydown .escape false s = goBack s ∧
      (goBack s).appState = .input ∧ (goBack s).pending = none ∧
      (goBack s).tokens = [] ∧ (goBack s).wordIndex = 0 ∧
      (goBack s).sourceText = [] ∧
      (goBack s).errorMessage = s.errorMessage := by
  intro s h
  have hguard : ¬ (s.appState = .input ∨ s.appState = .loading ∨ s.appState = .countdown) := by
    rcases h with h | h | h <;> rw [h] <;> decide
  refine ⟨?_, rfl, rfl, rfl, rfl, rfl, rfl⟩
  simp only [handleKeydown]
  rw [if_neg hguard]

/-- Witness for C9 at a concrete paused session with saved text. -/
theorem C9_witness :
    handleKeydown .escape false
      { appState := .paused, inputValue := [], sourceText := "Hi there".toList,
        tokens := ["Hi".toList, "there".toList], wordIndex := 1, wpm := 600,
        errorMessage := [], pending := none } =
      goBack
      { appState := .paused, inputValue := [], sourceText := "Hi there".toList,
        tokens := ["Hi".toList, "there".toList], wordIndex := 1, wpm := 600,
        errorMessage := [], pending := none } :=
  (C9_back_to_input _ (Or.inr (Or.inl rfl))).1

lemma handleKeydown_right (s : MachineState)
    (hguard : ¬ (s.appState = .input ∨ s.appState = .loading ∨ s.appState = .countdown)) :
    handleKeydown .arrowRight false s =
      { s with wordIndex := min ((s.tokens.length : ℚ) - 1) (s.wordIndex + 1) } := by
  simp only [handleKeydown]
  rw [if_neg hguard]
  norm_num

/-- Claim C6 evaluation: seeking to the last token while playing does
not cancel the armed advance timer, and its firing then drives the
index to the token count itself — outside the claimed range
`0 ≤ index < tokens.length` — while entering the finished state. -/
theorem C6_stale_advance_overrun :
    tokenize "He is ok".toList = ["He".toList, "is".toList, "ok".toList] ∧
    (handleKeydown .arrowRight false
      (handleKeydown .arrowRight false (startTimer seekSession))).wordIndex = 2 ∧
    (handleKeydown .arrowRight false
      (handleKeydown .arrowRight false (startTimer seekSession))).pending = some 100 ∧
    staleAdvanceTrace.wordIndex = 3 ∧
    staleAdvanceTrace.tokens.length = 3 ∧
    staleAdvanceTrace.appState = .finished ∧
    (staleAdvanceTrace.tokens.length : ℚ) ≤ staleAdvanceTrace.wordIndex := by
  have htoks : tokenize "He is ok".toList = ["He".toList, "is".toList, "ok".toList] := by
    decide
  have h0 : startTimer seekSession =
      { appState := .playing, inputValue := [], sourceText := "He is ok".toList,
        tokens := ["He".toList, "is".toList, "ok".toList], wordIndex := 0,
        wpm := 600, errorMessage := [], pending := some 100 } := by
    have hseek : seekSession =
        { appState := .playing, inputValue := [], sourceText := "He is ok".toList,
          tokens := ["He".toList, "is".toList, "ok".toList], wordIndex := 0,
          wpm := 600, errorMessage := [], pending := none } := by
      unfold seekSession; rw [htoks]
    rw [hseek]
    refine startTimer_run _ 100 (by decide) (by norm_num) ?_
    show getWordDelay 600 (tokGet ["He".toList, "is".toList, "ok".toList] 0) = 100
    rw [show tokGet ["He".toList, "is".toList, "ok".toList] (0 : ℚ) = "He".toList from rfl]
    rw [getWordDelay_base 600 "He".toList rfl rfl]
    norm_num
  have h1 : handleKeydown .arrowRight false
      { appState := .playing, inputValue := [], sourceText := "He is ok".toList,
        tokens := ["He".toList, "is".toList, "ok".toList], wordIndex := 0,
        wpm := 600, errorMessage := [], pending := some 100 } =
      { appState := .playing, inputValue := [], sourceText := "He is ok".toList,
        tokens := ["He".toList, "is".toList, "ok".toList], wordIndex := 1,
        wpm := 600, errorMessage := [], pending := some 100 } := by
    rw [handleKeydown_right _ (by decide)]
    norm_num [MachineState.mk.injEq]
  have h2 : handleKeydown .arrowRight false
      { appState := .playing, inputValue := [], sourceText := "He is ok".toList,
        tokens := ["He".toList, "is".toList, "ok".toList], wordIndex := 1,
        wpm := 600, errorMessage := [], pending := some 100 } =
      { appState := .playing, inputValue := [], sourceText := "He is ok".toList,
        tokens := ["He".toList, "is".toList, "ok".toList], wordIndex := 2,
        wpm := 600, errorMessage := [], pending := some 100 } := by
    rw [handleKeydown_right _ (by decide)]
    norm_num [MachineState.mk.injEq]
  have h3 : fireTimer
      { appState := .playing, inputValue := [], sourceText := "He is ok".toList,
        tokens := ["He".toList, "is".toList, "ok".toList], wordIndex := 2,
        wpm := 600, errorMessage := [], pending := some 100 } =
      { appState := .finished, inputValue := [], sourceText := "He is ok".toList,
        tokens := ["He".toList, "is".toList, "ok".toList], wordIndex := 3,
        wpm := 600, errorMessage := [], pending := none } := by
    rw [fireTimer_finish _ 100 rfl rfl (by norm_num)]
    norm_num [MachineState.mk.injEq]
  have htr : staleAdvanceTrace =
      { appState := .finished, inputValue := [], sourceText := "He is ok".toList,
        tokens := ["He".toList, "is".toList, "ok".toList], wordIndex := 3,
        wpm := 600, errorMessage := [], pending := none } := by
    unfold staleAdvanceTrace
    rw [h0, h1, h2, h3]
  refine ⟨htoks, ?_, ?_, ?_, ?_, ?_, ?_⟩
  · rw [h0, h1, h2]
  · rw [h0, h1, h2]
  · rw [htr]
  · rw [htr]; rfl
  · rw [htr]
  · rw [htr]
    norm_num

lemma loadWpm_pos (v : JValue) : 0 < loadWpm v := by
  have h450 : (0 : ℚ) < 450 := by norm_num
  unfold loadWpm
  split
  · split_ifs with hq
    · exact hq
    · exact h450
  · exact h450

lemma loadWordIndex_nonneg (v : JValue) : 0 ≤ loadWordIndex v := by
  unfold loadWordIndex
  split
  · split_ifs with hq
    · exact hq
    · exact le_refl 0
  · exact le_refl 0

lemma loadState_wpm_pos (stored : Option (Except Unit JValue)) :
    0 < (loadState stored).wpm := by
  have h450 : (0 : ℚ) < 450 := by norm_num
  rcases stored with _ | e
  · exact h450
  rcases e with _ | v
  · exact h450
  cases v with
  | jnull => exact h450
  | jbool b => exact loadWpm_pos _
  | jnum q => exact loadWpm_pos _
  | jstr s => exact loadWpm_pos _
  | jarr elems => exact loadWpm_pos _
  | jobj fields => exact loadWpm_pos _

lemma loadState_wordIndex_nonneg (stored : Option (Except Unit JValue)) :
    0 ≤ (loadState stored).wordIndex := by
  rcases stored with _ | e
  · exact le_refl 0
  rcases e with _ | v
  · exact le_refl 0
  cases v with
  | jnull => exact le_refl 0
  | jbool b => exact loadWordIndex_nonneg _
  | jnum q => exact loadWordIndex_nonneg _
  | jstr s => exact loadWordIndex_nonneg _
  | jarr elems => exact loadWordIndex_nonneg _
  | jobj fields => exact loadWordIndex_nonneg _

/-- Claim C8: loading never fails and validates per field.  A record
with a non-positive or non-numeric wpm yields the default wpm 450 while
the other valid fields are kept; a negative wordIndex yields 0; corrupt
JSON or an empty slot yields the full default record; and on every
possible input the loaded wpm is positive and the loaded word index is
non-negative. -/
theorem C8_loadState_validation :
    loadState (some (.ok (.jobj [("url", .jstr "u".toList),
        ("sourceText", .jstr "t".toList), ("wpm", .jnum (-5)), ("wordIndex", .jnum 2)]))) =
      { url := "u".toList, sourceText := "t".toList, wpm := 450, wordIndex := 2 } ∧
    loadState (some (.ok (.jobj [("url", .jstr "u".toList),
        ("sourceText", .jstr "t".toList), ("wpm", .jstr "x".toList), ("wordIndex", .jnum 2)]))) =
      { url := "u".toList, sourceText := "t".toList, wpm := 450, wordIndex := 2 } ∧
    loadState (some (.ok (.jobj [("url", .jstr "u".toList),
        ("sourceText", .jstr "t".toList), ("wpm", .jnum 500), ("wordIndex", .jnum (-3))]))) =
      { url := "u".toList, sourceText := "t".toList, wpm := 500, wordIndex := 0 } ∧
    loadState (some (.ok (.jobj [("url", .jstr "u".toList),
        ("sourceText", .jstr "t".toList), ("wpm", .jnum 500), ("wordIndex", .jstr "x".toList)]))) =
      { url := "u".toList, sourceText := "t".toList, wpm := 500, wordIndex := 0 } ∧
    loadState (some (.error ())) = DEFAULT_STATE ∧
    loadState none = DEFAULT_STATE ∧
    (∀ stored, 0 < (loadState stored).wpm) ∧
    (∀ stored, 0 ≤ (loadState stored).wordIndex) := by
  refine ⟨by decide, by decide, by decide, by decide, rfl, rfl, loadState_wpm_pos,
    loadState_wordIndex_nonneg⟩

/-- Claim C10: at engine startup the session wpm is the minimum of the
loaded wpm and 900 (with 300 substituted for a falsy loaded value, a
case the validated load never produces), so a persisted wpm above 900
starts the session at exactly 900 rather than the persisted value. -/
theorem C10_startup_wpm_clamp :
    (∀ stored, onMountWpm (loadState stored) = min ((loadState stored).wpm) 900) ∧
    (∀ stored, 900 < (loadState stored).wpm → onMountWpm (loadState stored) = 900) ∧
    onMountWpm (loadState (some (.ok (.jobj [("wpm", .jnum 1500)])))) = 900 ∧
    (loadState (some (.ok (.jobj [("wpm", .jnum 1500)])))).wpm = 1500 := by
  have hmin : ∀ stored, onMountWpm (loadState stored) = min ((loadState stored).wpm) 900 := by
    intro stored
    have hne : (loadState stored).wpm ≠ 0 := ne_of_gt (loadState_wpm_pos stored)
    simp only [onMountWpm, jsOrNum]
    rw [if_neg hne]
  have h1500 : (loadState (some (.ok (.jobj [("wpm", .jnum 1500)])))).wpm = 1500 := by
    decide
  refine ⟨hmin, ?_, ?_, h1500⟩
  · intro stored h
    rw [hmin stored]
    exact min_eq_right (le_of_lt h)
  · rw [hmin, h1500]
    norm_num

/-- Witness for C10: the persisted wpm 1500 is clamped to 900. -/
theorem C10_witness :
    onMountWpm (loadState (some (.ok (.jobj [("wpm", .jnum 1500)])))) = 900 := by
  refine C10_startup_wpm_clamp.2.1 (some (.ok (.jobj [("wpm", .jnum 1500)]))) ?_
  rw [C10_startup_wpm_clamp.2.2.2]
  norm_num

end Gulp
